import Mathlib

/-!
Shallow embedding of the TaskOff core in Lean 4.

The embedding covers the parts of the repository the verified properties
are about:

* `src/models/action.py` — the `ActionType` enumeration, the `Action`
  dataclass (including `__post_init__` description generation and the
  dict serialization), and the `ActionSequence` container with its
  `add_action` / `remove_action` / `move_action` / `to_dict` / `from_dict`
  operations.
* `src/core/scheduler.py` — the countdown tick loop
  (`ShutdownScheduler._start_countdown_tick`) run to natural completion,
  modelled as the list of callback notifications it delivers.
* `src/automation/executor.py` — `ActionExecutor.execute_action` /
  `execute_sequence` / `stop`, modelled as a trace of callback events,
  with the underlying input primitives abstracted by an oracle that says
  which primitive invocations raise.
* `src/automation/keyboard_control.py` — `KeyboardController.type_unicode`,
  modelled as the list of clipboard/keystroke operations it performs.

Python dict values read from a parsed sequence file are dynamically
typed, so serialized data is modelled by a `Json` value type, and the
dataclass fields that the Python runtime never type-checks (`id`,
`params`, `description`, `enabled`, `name`) are carried as `Json` values.
Python operations that can raise (`d[k]`, `d.get` on a non-dict,
iteration of a non-iterable, `ActionType(x)` on an unknown value, ...)
return `Except PyErr`.
-/

namespace TaskOff

/-- A JSON-like dynamic value, the type of everything a parsed sequence
file (or a dataclass field the runtime does not check) can hold. -/
inductive Json where
  | null
  | bool (b : Bool)
  | num (n : Int)
  | str (s : String)
  | arr (elems : List Json)
  | obj (fields : List (String × Json))

/-- The Python exceptions the embedded code can raise. -/
inductive PyErr where
  | keyError (key : String)
  | valueError (msg : String)
  | typeError (msg : String)
  | attributeError (msg : String)
deriving DecidableEq

/-- Python truthiness (`bool(x)`) of a dynamic value: `None`, `False`,
`0`, `""`, `[]` and the empty dict are falsy, everything else truthy. -/
def Json.truthy : Json → Bool
  | .null => false
  | .bool b => b
  | .num n => n != 0
  | .str s => !s.isEmpty
  | .arr xs => !xs.isEmpty
  | .obj kvs => !kvs.isEmpty

/-- Python `d.get(key, default)`: total on dicts, raises
`AttributeError` on every other value (no other value has `.get`). -/
def pyGet (d : Json) (key : String) (dflt : Json) : Except PyErr Json :=
  match d with
  | .obj kvs => .ok ((kvs.lookup key).getD dflt)
  | _ => .error (.attributeError ("object has no attribute " ++ "\x27get\x27"))

/-- Python `d[key]` with a string key: dict lookup raising `KeyError`
when the key is absent; on a string or list a string index raises
`TypeError`, as does subscripting any non-subscriptable value. -/
def pySubscript (d : Json) (key : String) : Except PyErr Json :=
  match d with
  | .obj kvs =>
    match kvs.lookup key with
    | some v => .ok v
    | none => .error (.keyError key)
  | .str _ => .error (.typeError "string indices must be integers")
  | _ => .error (.typeError "object is not subscriptable")

/-- Python iteration `for x in v`: lists yield their elements, strings
yield their characters as one-character strings, dicts yield their keys,
and every other value raises `TypeError`. -/
def pyIter : Json → Except PyErr (List Json)
  | .arr xs => .ok xs
  | .str s => .ok (s.data.map fun c => Json.str (String.mk [c]))
  | .obj kvs => .ok (kvs.map fun kv => Json.str kv.1)
  | _ => .error (.typeError "object is not iterable")

/-- Python `len(v)`: defined on strings, lists and dicts, `TypeError`
otherwise. -/
def pyLen : Json → Except PyErr Nat
  | .str s => .ok s.length
  | .arr xs => .ok xs.length
  | .obj kvs => .ok kvs.length
  | _ => .error (.typeError "object has no len")

/-- Python `v > 0` as used in `_generate_description` (the only
comparison in the source compares against the literal `0`): numbers
compare numerically, `bool` is an `int` subclass, everything else raises
`TypeError`. -/
def pyGtZero : Json → Except PyErr Bool
  | .num n => .ok (decide (0 < n))
  | .bool b => .ok b
  | _ => .error (.typeError "not supported between instances")

/-- Python `abs(v)`: numeric only (`bool` coerces to `0`/`1`). -/
def pyAbs : Json → Except PyErr Json
  | .num n => .ok (.num |n|)
  | .bool b => .ok (.num (if b then 1 else 0))
  | _ => .error (.typeError "bad operand type for abs")

mutual

/-- Python `repr(v)` of a dynamic value (string escaping inside quotes
is not reproduced; no verified property depends on it). -/
def Json.pyRepr : Json → String
  | .null => "None"
  | .bool true => "True"
  | .bool false => "False"
  | .num n => toString n
  | .str s => "\x27" ++ s ++ "\x27"
  | .arr xs => "[" ++ String.intercalate ", " (Json.pyReprList xs) ++ "]"
  | .obj kvs => "\x7b" ++ String.intercalate ", " (Json.pyReprKVs kvs) ++ "\x7d"

/-- Helper of `Json.pyRepr` for list elements. -/
def Json.pyReprList : List Json → List String
  | [] => []
  | x :: xs => x.pyRepr :: Json.pyReprList xs

/-- Helper of `Json.pyRepr` for dict entries. -/
def Json.pyReprKVs : List (String × Json) → List String
  | [] => []
  | (k, v) :: kvs => ("\x27" ++ k ++ "\x27: " ++ v.pyRepr) :: Json.pyReprKVs kvs

end

/-- Python `str(v)` as used by f-string interpolation: strings are
rendered verbatim, containers via `repr`. -/
def Json.pyStr : Json → String
  | .str s => s
  | .null => "None"
  | .bool true => "True"
  | .bool false => "False"
  | .num n => toString n
  | .arr xs => Json.pyRepr (.arr xs)
  | .obj kvs => Json.pyRepr (.obj kvs)

/-- Python `"+".join(v)` as used for hotkey descriptions: joins a list
(each element must be a string), the characters of a string, or the keys
of a dict; raises `TypeError` otherwise. -/
def pyJoinPlus (v : Json) : Except PyErr String :=
  match v with
  | .arr xs => do
    let ss ← allStrs xs
    .ok (String.intercalate "+" ss)
  | .str s => .ok (String.intercalate "+" (s.data.map fun c => String.mk [c]))
  | .obj kvs => .ok (String.intercalate "+" (kvs.map fun kv => kv.1))
  | _ => .error (.typeError "can only join an iterable")
where
  /-- Each joined element must already be a string. -/
  allStrs : List Json → Except PyErr (List String)
    | [] => .ok []
    | .str s :: rest => do
      let ss ← allStrs rest
      .ok (s :: ss)
    | _ :: _ => .error (.typeError "sequence item: expected str instance")

/-- The `ActionType` enumeration of `src/models/action.py`. -/
inductive ActionType where
  | mouse_click
  | mouse_double_click
  | mouse_right_click
  | mouse_move
  | mouse_drag
  | mouse_scroll
  | keyboard_type
  | keyboard_press
  | keyboard_hotkey
  | delay
deriving DecidableEq

/-- The string `value` of each `ActionType` member. -/
def ActionType.value : ActionType → String
  | .mouse_click => "mouse_click"
  | .mouse_double_click => "mouse_double_click"
  | .mouse_right_click => "mouse_right_click"
  | .mouse_move => "mouse_move"
  | .mouse_drag => "mouse_drag"
  | .mouse_scroll => "mouse_scroll"
  | .keyboard_type => "keyboard_type"
  | .keyboard_press => "keyboard_press"
  | .keyboard_hotkey => "keyboard_hotkey"
  | .delay => "delay"

/-- Python `ActionType(x)`: member lookup by value, raising `ValueError`
when `x` is not the value of any member (in particular when `x` is not a
string at all). -/
def ActionType.ofValue : Json → Except PyErr ActionType
  | .str "mouse_click" => .ok .mouse_click
  | .str "mouse_double_click" => .ok .mouse_double_click
  | .str "mouse_right_click" => .ok .mouse_right_click
  | .str "mouse_move" => .ok .mouse_move
  | .str "mouse_drag" => .ok .mouse_drag
  | .str "mouse_scroll" => .ok .mouse_scroll
  | .str "keyboard_type" => .ok .keyboard_type
  | .str "keyboard_press" => .ok .keyboard_press
  | .str "keyboard_hotkey" => .ok .keyboard_hotkey
  | .str "delay" => .ok .delay
  | _ => .error (.valueError "is not a valid ActionType")

/-- The `Action` dataclass. Fields other than `action_type` are carried
as dynamic values because `from_dict` stores whatever the parsed file
held, unchecked. Field order follows the dataclass declaration. -/
structure Action where
  action_type : ActionType
  params : Json
  description : Json
  id : Json
  enabled : Json

/-- The `Action._generate_description` method: renders a short
human-readable string from `action_type` + `params`. The Python if/elif
chain covers all ten members, so its trailing
`return self.action_type.get_display_name()` is unreachable and the Lean
match is total over the ten constructors. -/
def generateDescription (t : ActionType) (params : Json) : Except PyErr String :=
  match t with
  | .mouse_click => do
    let x ← pyGet params "x" (.num 0)
    let y ← pyGet params "y" (.num 0)
    .ok ("点击位置 (" ++ x.pyStr ++ ", " ++ y.pyStr ++ ")")
  | .mouse_double_click => do
    let x ← pyGet params "x" (.num 0)
    let y ← pyGet params "y" (.num 0)
    .ok ("双击位置 (" ++ x.pyStr ++ ", " ++ y.pyStr ++ ")")
  | .mouse_right_click => do
    let x ← pyGet params "x" (.num 0)
    let y ← pyGet params "y" (.num 0)
    .ok ("右键点击 (" ++ x.pyStr ++ ", " ++ y.pyStr ++ ")")
  | .mouse_move => do
    let x ← pyGet params "x" (.num 0)
    let y ← pyGet params "y" (.num 0)
    .ok ("移动到 (" ++ x.pyStr ++ ", " ++ y.pyStr ++ ")")
  | .mouse_drag => do
    let x ← pyGet params "x" (.num 0)
    let y ← pyGet params "y" (.num 0)
    .ok ("拖拽到 (" ++ x.pyStr ++ ", " ++ y.pyStr ++ ")")
  | .mouse_scroll => do
    let amount ← pyGet params "amount" (.num 0)
    let up ← pyGtZero amount
    let mag ← pyAbs amount
    .ok ("滚动 " ++ (if up then "向上" else "向下") ++ " " ++ mag.pyStr ++ " 格")
  | .keyboard_type => do
    let text ← pyGet params "text" (.str "")
    let n ← pyLen text
    let shown ←
      if 20 < n then
        match text with
        | .str s => Except.ok (Json.str (s.take 20 ++ "..."))
        | _ => Except.error (PyErr.typeError "can only concatenate str")
      else Except.ok text
    .ok ("输入: " ++ shown.pyStr)
  | .keyboard_press => do
    let key ← pyGet params "key" (.str "")
    .ok ("按键: " ++ key.pyStr)
  | .keyboard_hotkey => do
    let keys ← pyGet params "keys" (.arr [])
    let joined ← pyJoinPlus keys
    .ok ("组合键: " ++ joined)
  | .delay => do
    let secs ← pyGet params "seconds" (.num 0)
    .ok ("等待 " ++ secs.pyStr ++ " 秒")

/-- The `Action(...)` constructor including `__post_init__`: when the
supplied description is falsy it is replaced by the generated one
(which may itself raise if `params` is not a dict). -/
def Action.create (action_type : ActionType) (params : Json)
    (description : Json) (id : Json) (enabled : Json) : Except PyErr Action :=
  if description.truthy then
    .ok ⟨action_type, params, description, id, enabled⟩
  else do
    let d ← generateDescription action_type params
    .ok ⟨action_type, params, .str d, id, enabled⟩

/-- `Action.to_dict`. -/
def Action.to_dict (a : Action) : Json :=
  .obj [("id", a.id),
        ("action_type", .str a.action_type.value),
        ("params", a.params),
        ("description", a.description),
        ("enabled", a.enabled)]

/-- `Action.from_dict`. The `id` default in the source is a fresh
`uuid.uuid4()` prefix; the generated string is passed in as the
`freshId` argument. Keyword arguments are evaluated left to right as in
the source (`id`, then `action_type`, `params`, `description`,
`enabled`), then the dataclass constructor (with `__post_init__`) runs. -/
def Action.from_dict (freshId : String) (data : Json) : Except PyErr Action := do
  let id ← pyGet data "id" (.str freshId)
  let tv ← pySubscript data "action_type"
  let t ← ActionType.ofValue tv
  let params ← pyGet data "params" (.obj [])
  let description ← pyGet data "description" (.str "")
  let enabled ← pyGet data "enabled" (.bool true)
  Action.create t params description id enabled

/-- The `ActionSequence` dataclass: a name and an ordered action list. -/
structure ActionSequence where
  name : Json
  actions : List Action

/-- `ActionSequence.add_action`: append. -/
def ActionSequence.add_action (s : ActionSequence) (a : Action) : ActionSequence :=
  { s with actions := s.actions ++ [a] }

/-- Python `a.id != action_id` where `action_id` is a string: equality
between a string and a value of any other type is `False` in Python, so
the comparison is structural. -/
def idNeqStr (x : Json) (s : String) : Bool :=
  match x with
  | .str t => t != s
  | _ => true

/-- `ActionSequence.remove_action`: keep exactly the actions whose `id`
differs from `action_id`. -/
def ActionSequence.remove_action (s : ActionSequence) (action_id : String) : ActionSequence :=
  { s with actions := s.actions.filter fun a => idNeqStr a.id action_id }

/-- `ActionSequence.move_action`: no-op unless both indices are in
bounds, otherwise `pop(from_index)` followed by
`insert(to_index, action)`. Indices are Python ints (the UI can pass
`-1`), hence `Int`. -/
def ActionSequence.move_action (s : ActionSequence) (from_index to_index : Int) : ActionSequence :=
  if h : 0 ≤ from_index ∧ from_index < (s.actions.length : Int) ∧
      0 ≤ to_index ∧ to_index < (s.actions.length : Int) then
    let a := s.actions.get ⟨from_index.toNat, by omega⟩
    { s with actions := (s.actions.eraseIdx from_index.toNat).insertIdx to_index.toNat a }
  else s

/-- `ActionSequence.get_action`: first action with the given id, if any. -/
def ActionSequence.get_action (s : ActionSequence) (action_id : String) : Option Action :=
  s.actions.find? fun a => !idNeqStr a.id action_id

/-- `ActionSequence.to_dict`. -/
def ActionSequence.to_dict (s : ActionSequence) : Json :=
  .obj [("name", s.name), ("actions", .arr (s.actions.map Action.to_dict))]

/-- The parse loop of `ActionSequence.from_dict`: each entry is parsed
with `Action.from_dict` and appended in order; the first exception
aborts the load. `fresh n` is the uuid the n-th entry would receive if
it lacks an `id` field. -/
def parseActions (fresh : Nat → String) : List Json → Nat → Except PyErr (List Action)
  | [], _ => .ok []
  | d :: rest, n => do
    let a ← Action.from_dict (fresh n) d
    let as ← parseActions fresh rest (n + 1)
    .ok (a :: as)

/-- `ActionSequence.from_dict`: reads `name` (default `"未命名序列"`) and
iterates `data.get('actions', [])`, adding each parsed action. -/
def ActionSequence.from_dict (fresh : Nat → String) (data : Json) :
    Except PyErr ActionSequence := do
  let name ← pyGet data "name" (.str "未命名序列")
  let rawActions ← pyGet data "actions" (.arr [])
  let items ← pyIter rawActions
  let acts ← parseActions fresh items 0
  .ok ⟨name, acts⟩

/-- The id-uniqueness invariant of the spec: no two actions of a
sequence share an `id`. -/
def ActionSequence.distinctIds (s : ActionSequence) : Prop :=
  List.Pairwise (· ≠ ·) (s.actions.map Action.id)

/-! ## Countdown scheduler (`src/core/scheduler.py`) -/

/-- A notification delivered by the scheduler's tick loop: the per-second
`on_tick` callback (argument: the pre-decrement remaining seconds), the
one-shot `on_warning` callback, or the final `on_complete` callback. -/
inductive SchedEvent where
  | tick (remaining : Int)
  | warning (remaining : Int)
  | complete
deriving DecidableEq

/-- The chain of `ShutdownScheduler._start_countdown_tick` invocations of
a countdown that runs to natural completion (no `cancel`/`pause`, so
`_is_running` stays true until the loop itself clears it), as the list of
callback notifications it delivers. Each pass: under the lock, if
`_remaining_seconds <= 0` the loop marks not-running and fires
`on_complete`, scheduling nothing further; otherwise it captures the
pre-decrement value, decrements the stored count, fires `on_tick` with
the captured value, fires `on_warning` if that value equals
`_warning_seconds`, and schedules the next pass one second later. -/
def tickLoop (remaining warning_seconds : Int) : List SchedEvent :=
  if remaining ≤ 0 then [.complete]
  else
    .tick remaining ::
      ((if remaining = warning_seconds then [.warning remaining] else []) ++
        tickLoop (remaining - 1) warning_seconds)
termination_by remaining.toNat
decreasing_by omega

/-- `ShutdownScheduler.start(seconds)` followed by the tick loop running
to natural completion: `start` stores `seconds` as the remaining count,
sets `_is_running`, and invokes `_start_countdown_tick`. -/
def startRun (seconds warning_seconds : Int) : List SchedEvent :=
  tickLoop seconds warning_seconds

/-- The arguments of the tick notifications of a run, in delivery order. -/
def ticksOf (es : List SchedEvent) : List Int :=
  es.filterMap fun e =>
    match e with
    | .tick r => some r
    | _ => none

/-- The arguments of the warning notifications of a run, in delivery order. -/
def warnsOf (es : List SchedEvent) : List Int :=
  es.filterMap fun e =>
    match e with
    | .warning r => some r
    | _ => none

theorem ticksOf_append (a b : List SchedEvent) :
    ticksOf (a ++ b) = ticksOf a ++ ticksOf b := by
  simp [ticksOf]

theorem warnsOf_append (a b : List SchedEvent) :
    warnsOf (a ++ b) = warnsOf a ++ warnsOf b := by
  simp [warnsOf]

/-- Closed form of the tick values of a full run: the pre-decrement
values `remaining, remaining - 1, …, 1`. -/
theorem ticksOf_tickLoop (r w : Int) :
    ticksOf (tickLoop r w) = (List.range r.toNat).map (fun i : Nat => r - (i : Int)) := by
  induction r, w using tickLoop.induct with
  | case1 r w h =>
    rw [tickLoop, if_pos h]
    have h0 : r.toNat = 0 := Int.toNat_of_nonpos h
    simp [ticksOf, h0]
  | case2 r w h ih =>
    rw [tickLoop, if_neg h]
    have hr : r.toNat = (r - 1).toNat + 1 := by omega
    have hmap : (List.range r.toNat).map (fun i : Nat => r - (i : Int)) =
        r :: (List.range (r - 1).toNat).map (fun i : Nat => (r - 1) - (i : Int)) := by
      rw [hr, List.range_succ_eq_map]
      simp only [List.map_cons, List.map_map, Nat.cast_zero, sub_zero]
      congr 1
      apply List.map_congr_left
      intro i _
      simp only [Function.comp_apply]
      push_cast
      ring
    rw [hmap, ← ih]
    simp only [ticksOf, List.filterMap_cons, List.filterMap_append]
    split <;> simp [ticksOf]

/-- A full run is some complete-free prefix followed by exactly one
complete notification. -/
theorem tickLoop_complete_last (r w : Int) :
    ∃ pre, tickLoop r w = pre ++ [SchedEvent.complete] ∧ SchedEvent.complete ∉ pre := by
  induction r, w using tickLoop.induct with
  | case1 r w h =>
    exact ⟨[], by rw [tickLoop, if_pos h]; simp, by simp⟩
  | case2 r w h ih =>
    obtain ⟨pre, hpre, hnot⟩ := ih
    refine ⟨.tick r :: ((if r = w then [.warning r] else []) ++ pre), ?_, ?_⟩
    · rw [tickLoop, if_neg h, hpre]
      simp
    · intro hmem
      simp only [List.mem_cons, List.mem_append] at hmem
      rcases hmem with heq | hmem | hmem
      · exact absurd heq (by simp)
      · split at hmem <;> simp_all
      · exact hnot hmem

/-- Closed form of the warning values of a full run: the single value
`w` exactly when some tick carries it (`1 ≤ w ≤ remaining`). -/
theorem warnsOf_tickLoop (r w : Int) :
    warnsOf (tickLoop r w) = if 1 ≤ w ∧ w ≤ r then [w] else [] := by
  induction r, w using tickLoop.induct with
  | case1 r w h =>
    rw [tickLoop, if_pos h, if_neg (by omega)]
    simp [warnsOf]
  | case2 r w h ih =>
    rw [tickLoop, if_neg h]
    have hcons : ∀ l, warnsOf (.tick r :: l) = warnsOf l := fun l => rfl
    rw [hcons, warnsOf_append, ih]
    by_cases hw : r = w
    · rw [if_pos hw, if_neg (by omega), if_pos (by omega)]
      simp [warnsOf, hw]
    · rw [if_neg hw]
      by_cases h1 : 1 ≤ w ∧ w ≤ r - 1
      · rw [if_pos h1, if_pos (by omega)]
        simp [warnsOf]
      · rw [if_neg h1, if_neg (by omega)]
        simp [warnsOf]

/-- When a tick carries the warning value, the warning notification is
delivered immediately after that tick, in the same loop pass. -/
theorem warn_adjacent (r w : Int) (h1 : 1 ≤ w) (h2 : w ≤ r) :
    ∃ pre post, tickLoop r w = pre ++ [SchedEvent.tick w, SchedEvent.warning w] ++ post := by
  induction r, w using tickLoop.induct with
  | case1 r w h => omega
  | case2 r w h ih =>
    by_cases hw : r = w
    · refine ⟨[], tickLoop (r - 1) w, ?_⟩
      rw [tickLoop, if_neg h, if_pos hw, hw]
      simp
    · obtain ⟨pre, post, hp⟩ := ih h1 (by omega)
      refine ⟨.tick r :: pre, post, ?_⟩
      rw [tickLoop, if_neg h, if_neg hw, hp]
      simp

/-- Guarded unfolding of the completion pass, for evaluating concrete runs. -/
theorem tickLoop_nonpos (r w : Int) (h : r ≤ 0) : tickLoop r w = [.complete] := by
  rw [tickLoop, if_pos h]

/-- Guarded unfolding of a counting pass, for evaluating concrete runs. -/
theorem tickLoop_pos (r w : Int) (h : 0 < r) :
    tickLoop r w =
      .tick r :: ((if r = w then [.warning r] else []) ++ tickLoop (r - 1) w) := by
  rw [tickLoop, if_neg (by omega)]

/-- C1 (amended): for every `seconds ≥ 1`, starting the scheduler with
`start(seconds)` and letting the tick loop run to natural completion
delivers exactly `seconds` tick notifications whose argument values are
strictly decreasing and equal to `seconds, seconds - 1, …, 1` (the
pre-decrement values), followed by exactly one complete notification,
with no tick notification after the complete notification. -/
theorem C1_countdown_ticks_then_complete (s w : Int) (h : 1 ≤ s) :
    (ticksOf (startRun s w)).length = s.toNat ∧
    ticksOf (startRun s w) = (List.range s.toNat).map (fun i : Nat => s - (i : Int)) ∧
    List.Chain' (fun a b => b < a) (ticksOf (startRun s w)) ∧
    ∃ pre, startRun s w = pre ++ [SchedEvent.complete] ∧ SchedEvent.complete ∉ pre := by
  have hc := ticksOf_tickLoop s w
  refine ⟨by rw [startRun, hc]; simp, by rw [startRun]; exact hc, ?_, tickLoop_complete_last s w⟩
  rw [startRun, hc]
  apply List.Pairwise.chain'
  apply List.Pairwise.map (R := (· < ·))
  · intro a b hab
    have : (a : Int) < (b : Int) := by exact_mod_cast hab
    omega
  · exact List.pairwise_lt_range s.toNat

/-- C1 witness: at `seconds = 3` (warning threshold at its default 30)
the run delivers ticks `3, 2, 1` and then the complete notification. -/
theorem C1_countdown_ticks_then_complete_witness :
    ((ticksOf (startRun 3 30)).length = (3:Int).toNat ∧
      ticksOf (startRun 3 30) = (List.range (3:Int).toNat).map (fun i : Nat => 3 - (i : Int)) ∧
      List.Chain' (fun a b => b < a) (ticksOf (startRun 3 30)) ∧
      (∃ pre, startRun 3 30 = pre ++ [SchedEvent.complete] ∧ SchedEvent.complete ∉ pre)) ∧
    ticksOf (startRun 3 30) = [3, 2, 1] :=
  ⟨C1_countdown_ticks_then_complete 3 30 (by norm_num), by
    have h3 : tickLoop 3 30 = [.tick 3, .tick 2, .tick 1, .complete] := by
      rw [tickLoop_pos _ _ (by norm_num), show (3:Int) - 1 = 2 by norm_num,
          tickLoop_pos _ _ (by norm_num), show (2:Int) - 1 = 1 by norm_num,
          tickLoop_pos _ _ (by norm_num), show (1:Int) - 1 = 0 by norm_num,
          tickLoop_nonpos _ _ (by norm_num)]
      norm_num
    rw [startRun, h3]
    rfl⟩

/-- C1 as stated is false on the code: with `seconds = 1` the claim
demands the tick values `[0]` (`seconds-1, …, 0`), but the loop invokes
the tick callback with the pre-decrement value, so the single tick
carries `1`. -/
theorem C1_counterexample :
    ticksOf (startRun 1 30) = [1] ∧ ¬ ticksOf (startRun 1 30) = [0] := by
  have h1 : tickLoop 1 30 = [.tick 1, .complete] := by
    rw [tickLoop_pos _ _ (by norm_num), show (1:Int) - 1 = 0 by norm_num,
        tickLoop_nonpos _ _ (by norm_num)]
    norm_num
  have h : ticksOf (startRun 1 30) = [1] := by rw [startRun, h1]; rfl
  rw [h]
  exact ⟨rfl, by simp⟩

/-- C2 (amended): for every warning threshold `w` with `1 ≤ w < seconds`,
a run to natural completion delivers exactly one warning notification,
and it is delivered at the same step as (immediately after) the tick
notification carrying value `w`. -/
theorem C2_warning_once_adjacent (s w : Int) (h1 : 1 ≤ w) (h2 : w < s) :
    warnsOf (startRun s w) = [w] ∧
    ∃ pre post, startRun s w = pre ++ [SchedEvent.tick w, SchedEvent.warning w] ++ post :=
  ⟨by rw [startRun, warnsOf_tickLoop, if_pos ⟨h1, by omega⟩],
   warn_adjacent s w h1 (by omega)⟩

/-- C2 witness: at `seconds = 3`, `w = 2` exactly one warning fires,
right after the tick carrying 2. -/
theorem C2_warning_once_adjacent_witness :
    warnsOf (startRun 3 2) = [2] ∧
    ∃ pre post, startRun 3 2 = pre ++ [SchedEvent.tick 2, SchedEvent.warning 2] ++ post :=
  C2_warning_once_adjacent 3 2 (by norm_num) (by norm_num)

/-- C2 as stated is false on the code at `w = 0`: the claim allows
`0 ≤ w < seconds`, but tick value `0` never occurs (ticks run
`seconds … 1`), so no warning is ever delivered for threshold 0. -/
theorem C2_counterexample :
    warnsOf (startRun 2 0) = [] ∧ (warnsOf (startRun 2 0)).length ≠ 1 := by
  have h : warnsOf (startRun 2 0) = [] := by
    rw [startRun, warnsOf_tickLoop, if_neg (by norm_num)]
  rw [h]
  exact ⟨rfl, by simp⟩

/-! ## Action executor (`src/automation/executor.py`) -/

/-- A callback notification emitted by `ActionExecutor.execute_sequence`
/ `execute_action`. The `on_action_start` / `on_action_complete` /
`on_error` callbacks receive the action (and, for the first two, its
index); the step index identifies the pair. -/
inductive ExecEvent where
  | actionStart (index : Nat)
  | actionComplete (index : Nat)
  | errorNotice (index : Nat)
  | sequenceComplete
deriving DecidableEq

/-- Outcome of one `execute_action` call: the boolean it returns,
whether the error callback fired, and whether the dispatch body (the
`try` block that calls the input primitives) was entered at all —
disabled actions return success before it. -/
structure ActionResult where
  success : Bool
  errored : Bool
  enteredDispatch : Bool
deriving DecidableEq

/-- `ActionExecutor.execute_action`: a disabled action (Python
truthiness of `enabled`) returns `True` immediately, entering no
dispatch; otherwise the body dispatches by `action_type` to the
mouse/keyboard controller or to `time.sleep`, and returns `True` unless
that underlying invocation raises, in which case the exception is
caught, reported through `on_error`, and `False` is returned. The
behaviour of the one primitive invocation of this call is abstracted by
`primErr` (`none` = completes, `some e` = raises `e`). -/
def executeAction (primErr : Option PyErr) (a : Action) : ActionResult :=
  if !a.enabled.truthy then ⟨true, false, false⟩
  else
    match primErr with
    | none => ⟨true, false, true⟩
    | some _ => ⟨false, true, true⟩

/-- The notifications of one loop iteration of `execute_sequence` at
`index`: `on_action_start`, then `execute_action` (whose failure fires
`on_error` inside it), then `on_action_complete`. -/
def stepEvents (primErr : Option PyErr) (a : Action) (index : Nat) : List ExecEvent :=
  [.actionStart index] ++
    (if (executeAction primErr a).errored then [.errorNotice index] else []) ++
    [.actionComplete index]

/-- Whether the `if not self._is_running: break` check at iteration
`index` observes a cleared flag. `stop()` clears the flag once and
nothing re-sets it during a run, so the observations are modelled by the
first iteration index whose check sees it cleared (`none` = never). -/
def stopObserved (stopAt : Option Nat) (index : Nat) : Bool :=
  match stopAt with
  | some k => decide (k ≤ index)
  | none => false

/-- The `for index, action in enumerate(sequence.actions)` loop of
`execute_sequence`: each iteration first checks the running flag
(breaking with overall failure), then emits the iteration's
notifications, accumulating `success &&= result`. Returns the final
`success` and the emitted notifications. -/
def seqLoop (primErr : Nat → Option PyErr) (stopAt : Option Nat) :
    List Action → Nat → Bool → Bool × List ExecEvent
  | [], _, success => (success, [])
  | a :: rest, index, success =>
    if stopObserved stopAt index then (false, [])
    else
      let r := seqLoop primErr stopAt rest (index + 1)
        (success && (executeAction (primErr index) a).success)
      (r.1, stepEvents (primErr index) a index ++ r.2)

/-- `ActionExecutor.execute_sequence`: runs the loop from index 0 with
`success = True`, then always emits exactly one `on_sequence_complete`
notification and returns `success`. -/
def executeSequence (primErr : Nat → Option PyErr) (stopAt : Option Nat)
    (sequence : ActionSequence) : Bool × List ExecEvent :=
  let r := seqLoop primErr stopAt sequence.actions 0 true
  (r.1, r.2 ++ [.sequenceComplete])

/-- The notifications of an uninterrupted run over a list of actions. -/
def iterEvents (primErr : Nat → Option PyErr) : List Action → Nat → List ExecEvent
  | [], _ => []
  | a :: rest, index => stepEvents (primErr index) a index ++ iterEvents primErr rest (index + 1)

/-- The conjunction of the `execute_action` results of an uninterrupted
run. -/
def allResults (primErr : Nat → Option PyErr) : List Action → Nat → Bool
  | [], _ => true
  | a :: rest, index => (executeAction (primErr index) a).success && allResults primErr rest (index + 1)

theorem mem_stepEvents (e : ExecEvent) (primErr : Option PyErr) (a : Action) (index : Nat) :
    e ∈ stepEvents primErr a index ↔
      e = .actionStart index ∨
        (e = .errorNotice index ∧ (executeAction primErr a).errored = true) ∨
        e = .actionComplete index := by
  by_cases h : (executeAction primErr a).errored
  · simp [stepEvents, h]
  · simp only [Bool.not_eq_true] at h
    simp [stepEvents, h]

theorem seqComplete_not_in_loop (primErr : Nat → Option PyErr) (stopAt : Option Nat) :
    ∀ (as : List Action) (index : Nat) (acc : Bool),
      ExecEvent.sequenceComplete ∉ (seqLoop primErr stopAt as index acc).2 := by
  intro as
  induction as with
  | nil => intro index acc; simp [seqLoop]
  | cons a rest ih =>
    intro index acc
    simp only [seqLoop]
    split
    · simp
    · simp only [List.mem_append, not_or]
      refine ⟨?_, ih (index + 1) _⟩
      intro hmem
      rcases (mem_stepEvents _ _ _ _).mp hmem with h | ⟨h, _⟩ | h <;>
        exact ExecEvent.noConfusion h

theorem seqLoop_none_snd (primErr : Nat → Option PyErr) :
    ∀ (as : List Action) (index : Nat) (acc : Bool),
      (seqLoop primErr none as index acc).2 = iterEvents primErr as index := by
  intro as
  induction as with
  | nil => intro index acc; simp [seqLoop, iterEvents]
  | cons a rest ih =>
    intro index acc
    simp [seqLoop, iterEvents, stopObserved, ih]

theorem seqLoop_none_fst (primErr : Nat → Option PyErr) :
    ∀ (as : List Action) (index : Nat) (acc : Bool),
      (seqLoop primErr none as index acc).1 = (acc && allResults primErr as index) := by
  intro as
  induction as with
  | nil => intro index acc; simp [seqLoop, allResults]
  | cons a rest ih =>
    intro index acc
    simp [seqLoop, allResults, stopObserved, ih, Bool.and_assoc]

theorem start_mem_iterEvents (primErr : Nat → Option PyErr) :
    ∀ (as : List Action) (index j : Nat), j < as.length →
      ExecEvent.actionStart (index + j) ∈ iterEvents primErr as index := by
  intro as
  induction as with
  | nil => intro index j h; simp at h
  | cons a rest ih =>
    intro index j h
    simp only [iterEvents, List.mem_append]
    cases j with
    | zero => exact Or.inl ((mem_stepEvents _ _ _ _).mpr (Or.inl rfl))
    | succ j =>
      right
      have := ih (index + 1) j (by simpa using h)
      simpa [Nat.add_assoc, Nat.add_comm 1 j] using this

theorem complete_mem_iterEvents (primErr : Nat → Option PyErr) :
    ∀ (as : List Action) (index j : Nat), j < as.length →
      ExecEvent.actionComplete (index + j) ∈ iterEvents primErr as index := by
  intro as
  induction as with
  | nil => intro index j h; simp at h
  | cons a rest ih =>
    intro index j h
    simp only [iterEvents, List.mem_append]
    cases j with
    | zero => exact Or.inl ((mem_stepEvents _ _ _ _).mpr (Or.inr (Or.inr rfl)))
    | succ j =>
      right
      have := ih (index + 1) j (by simpa using h)
      simpa [Nat.add_assoc, Nat.add_comm 1 j] using this

theorem error_mem_iterEvents (primErr : Nat → Option PyErr) :
    ∀ (as : List Action) (index j : Nat) (a : Action), as.get? j = some a →
      (executeAction (primErr (index + j)) a).errored = true →
      ExecEvent.errorNotice (index + j) ∈ iterEvents primErr as index := by
  intro as
  induction as with
  | nil => intro index j a h; simp at h
  | cons b rest ih =>
    intro index j a hget herr
    simp only [iterEvents, List.mem_append]
    cases j with
    | zero =>
      simp only [List.get?] at hget
      cases hget
      have herr2 : (executeAction (primErr index) b).errored = true := herr
      exact Or.inl ((mem_stepEvents _ _ _ _).mpr (Or.inr (Or.inl ⟨rfl, herr2⟩)))
    | succ j =>
      right
      simp only [List.get?] at hget
      have := ih (index + 1) j a hget (by
        have h2 : index + 1 + j = index + (j + 1) := by omega
        rw [h2]
        exact herr)
      simpa [Nat.add_assoc, Nat.add_comm 1 j] using this

theorem allResults_false_of_fail (primErr : Nat → Option PyErr) :
    ∀ (as : List Action) (index j : Nat) (a : Action), as.get? j = some a →
      (executeAction (primErr (index + j)) a).success = false →
      allResults primErr as index = false := by
  intro as
  induction as with
  | nil => intro index j a h; simp at h
  | cons b rest ih =>
    intro index j a hget hfail
    cases j with
    | zero =>
      simp only [List.get?] at hget
      cases hget
      have hfail2 : (executeAction (primErr index) b).success = false := hfail
      simp [allResults, hfail2]
    | succ j =>
      simp only [List.get?] at hget
      have := ih (index + 1) j a hget (by
        have h2 : index + 1 + j = index + (j + 1) := by omega
        rw [h2]
        exact hfail)
      simp [allResults, this]

theorem seqLoop_stop_no_start (primErr : Nat → Option PyErr) (m : Nat) :
    ∀ (as : List Action) (index : Nat) (acc : Bool) (j : Nat), m ≤ j →
      ExecEvent.actionStart j ∉ (seqLoop primErr (some m) as index acc).2 := by
  intro as
  induction as with
  | nil => intro index acc j h; simp [seqLoop]
  | cons a rest ih =>
    intro index acc j h
    simp only [seqLoop]
    split
    · simp
    · rename_i hstop
      simp only [stopObserved, decide_eq_true_eq] at hstop
      simp only [List.mem_append, not_or]
      refine ⟨?_, ih (index + 1) _ j h⟩
      intro hmem
      rcases (mem_stepEvents _ _ _ _).mp hmem with h1 | ⟨h1, _⟩ | h1
      · cases h1; omega
      · exact ExecEvent.noConfusion h1
      · exact ExecEvent.noConfusion h1

theorem seqLoop_stop_fst (primErr : Nat → Option PyErr) (m : Nat) :
    ∀ (as : List Action) (index : Nat) (acc : Bool), index ≤ m → m - index < as.length →
      (seqLoop primErr (some m) as index acc).1 = false := by
  intro as
  induction as with
  | nil => intro index acc h1 h2; simp at h2
  | cons a rest ih =>
    intro index acc h1 h2
    simp only [seqLoop]
    by_cases hm : m ≤ index
    · rw [if_pos (by simp [stopObserved, hm])]
    · rw [if_neg (by simp [stopObserved]; omega)]
      exact ih (index + 1) _ (by omega) (by simp at h2; omega)

theorem seqLoop_stop_start_mem (primErr : Nat → Option PyErr) (m : Nat) :
    ∀ (as : List Action) (index : Nat) (acc : Bool) (j : Nat),
      index ≤ j → j < m → j - index < as.length →
      ExecEvent.actionStart j ∈ (seqLoop primErr (some m) as index acc).2 := by
  intro as
  induction as with
  | nil => intro index acc j h1 h2 h3; simp at h3
  | cons a rest ih =>
    intro index acc j h1 h2 h3
    simp only [seqLoop]
    rw [if_neg (by simp [stopObserved]; omega)]
    simp only [List.mem_append]
    by_cases hj : j = index
    · exact Or.inl ((mem_stepEvents _ _ _ _).mpr (Or.inl (by rw [hj])))
    · right
      exact ih (index + 1) _ j (by omega) h2 (by simp at h3; omega)

/-- C6: executing a three-action sequence whose middle action is
disabled and whose first and last actions are enabled and succeed emits
action-start and action-complete notifications for all three indices —
the disabled one completing immediately as a no-op success without
entering the dispatch body (hence never reaching the input driver) —
and returns overall success. -/
theorem C6_disabled_middle_noop (nm : Json) (a b c : Action)
    (primErr : Nat → Option PyErr)
    (ha : a.enabled.truthy = true) (hb : b.enabled.truthy = false)
    (hc : c.enabled.truthy = true) (h0 : primErr 0 = none) (h2 : primErr 2 = none) :
    (executeSequence primErr none ⟨nm, [a, b, c]⟩).1 = true ∧
    (executeSequence primErr none ⟨nm, [a, b, c]⟩).2 =
      [.actionStart 0, .actionComplete 0, .actionStart 1, .actionComplete 1,
       .actionStart 2, .actionComplete 2, .sequenceComplete] ∧
    (executeAction (primErr 1) b).enteredDispatch = false := by
  have ea : executeAction (primErr 0) a = ⟨true, false, true⟩ := by
    simp [executeAction, ha, h0]
  have eb : executeAction (primErr 1) b = ⟨true, false, false⟩ := by
    simp [executeAction, hb]
  have ec : executeAction (primErr 2) c = ⟨true, false, true⟩ := by
    simp [executeAction, hc, h2]
  refine ⟨?_, ?_, by rw [eb]⟩
  · simp [executeSequence, seqLoop, stopObserved, ea, eb, ec]
  · simp [executeSequence, seqLoop, stopObserved, stepEvents, ea, eb, ec]

/-- C6 witness: a concrete click / disabled delay / key-press sequence
with no primitive failures. -/
theorem C6_disabled_middle_noop_witness :
    (executeSequence (fun _ => none) none
        ⟨.str "s", [⟨.mouse_click, .obj [], .str "d1", .str "a1", .bool true⟩,
                    ⟨.delay, .obj [], .str "d2", .str "a2", .bool false⟩,
                    ⟨.keyboard_press, .obj [], .str "d3", .str "a3", .bool true⟩]⟩).1 = true ∧
    (executeSequence (fun _ => none) none
        ⟨.str "s", [⟨.mouse_click, .obj [], .str "d1", .str "a1", .bool true⟩,
                    ⟨.delay, .obj [], .str "d2", .str "a2", .bool false⟩,
                    ⟨.keyboard_press, .obj [], .str "d3", .str "a3", .bool true⟩]⟩).2 =
      [.actionStart 0, .actionComplete 0, .actionStart 1, .actionComplete 1,
       .actionStart 2, .actionComplete 2, .sequenceComplete] ∧
    (executeAction ((fun _ => none) 1)
        (⟨.delay, .obj [], .str "d2", .str "a2", .bool false⟩ : Action)).enteredDispatch = false :=
  C6_disabled_middle_noop _ _ _ _ _ rfl rfl rfl rfl rfl

/-- C7: when `stop()` takes effect after action index `k` has started
but before index `k + 1` starts (the top-of-loop check at iteration
`k + 1` — which exists, `k + 1 < length` — observes the cleared flag),
`execute_sequence` returns failure, no action at indices `k + 1` through
the end receives an action-start notification, and exactly one
sequence-complete notification is still emitted. -/
theorem C7_stop_at_step_boundary (nm : Json) (actions : List Action)
    (primErr : Nat → Option PyErr) (k : Nat) (h : k + 1 < actions.length) :
    (executeSequence primErr (some (k + 1)) ⟨nm, actions⟩).1 = false ∧
    ExecEvent.actionStart k ∈ (executeSequence primErr (some (k + 1)) ⟨nm, actions⟩).2 ∧
    (∀ j, k + 1 ≤ j →
      ExecEvent.actionStart j ∉ (executeSequence primErr (some (k + 1)) ⟨nm, actions⟩).2) ∧
    ((executeSequence primErr (some (k + 1)) ⟨nm, actions⟩).2).count ExecEvent.sequenceComplete = 1 := by
  refine ⟨?_, ?_, ?_, ?_⟩
  · exact seqLoop_stop_fst primErr (k + 1) actions 0 true (by omega) (by omega)
  · have hm := seqLoop_stop_start_mem primErr (k + 1) actions 0 true k
      (by omega) (by omega) (by omega)
    simp only [executeSequence, List.mem_append]
    exact Or.inl hm
  · intro j hj
    have hno := seqLoop_stop_no_start primErr (k + 1) actions 0 true j hj
    simp only [executeSequence, List.mem_append, not_or]
    exact ⟨hno, by simp⟩
  · simp only [executeSequence, List.count_append]
    rw [List.count_eq_zero.mpr (seqComplete_not_in_loop primErr (some (k + 1)) actions 0 true)]
    simp

/-- C7 witness: a two-action sequence stopped after action 0 started. -/
theorem C7_stop_at_step_boundary_witness :
    (executeSequence (fun _ => none) (some 1)
        ⟨.str "s", [⟨.delay, .obj [], .str "d1", .str "a1", .bool true⟩,
                    ⟨.delay, .obj [], .str "d2", .str "a2", .bool true⟩]⟩).1 = false ∧
    ExecEvent.actionStart 0 ∈ (executeSequence (fun _ => none) (some 1)
        ⟨.str "s", [⟨.delay, .obj [], .str "d1", .str "a1", .bool true⟩,
                    ⟨.delay, .obj [], .str "d2", .str "a2", .bool true⟩]⟩).2 ∧
    (∀ j, 0 + 1 ≤ j →
      ExecEvent.actionStart j ∉ (executeSequence (fun _ => none) (some 1)
        ⟨.str "s", [⟨.delay, .obj [], .str "d1", .str "a1", .bool true⟩,
                    ⟨.delay, .obj [], .str "d2", .str "a2", .bool true⟩]⟩).2) ∧
    ((executeSequence (fun _ => none) (some 1)
        ⟨.str "s", [⟨.delay, .obj [], .str "d1", .str "a1", .bool true⟩,
                    ⟨.delay, .obj [], .str "d2", .str "a2", .bool true⟩]⟩).2).count
      ExecEvent.sequenceComplete = 1 :=
  C7_stop_at_step_boundary _ _ _ 0 (by norm_num)

/-- C9: an `InputFailure` at index `i` on a non-cancelled run fires the
error notification but does not abort the loop — index `i + 1` still
receives its action-start and action-complete notifications — and the
run returns overall failure; a cancellation observed at the `i + 1`
boundary, by contrast, prevents every action from `i + 1` on from being
started. -/
theorem C9_failure_does_not_abort (nm : Json) (actions : List Action)
    (primErr : Nat → Option PyErr) (i : Nat) (a : Action) (e : PyErr)
    (hget : actions.get? i = some a) (hen : a.enabled.truthy = true)
    (herr : primErr i = some e) (hnext : i + 1 < actions.length) :
    ExecEvent.errorNotice i ∈ (executeSequence primErr none ⟨nm, actions⟩).2 ∧
    ExecEvent.actionStart (i + 1) ∈ (executeSequence primErr none ⟨nm, actions⟩).2 ∧
    ExecEvent.actionComplete (i + 1) ∈ (executeSequence primErr none ⟨nm, actions⟩).2 ∧
    (executeSequence primErr none ⟨nm, actions⟩).1 = false ∧
    (∀ j, i + 1 ≤ j →
      ExecEvent.actionStart j ∉ (executeSequence primErr (some (i + 1)) ⟨nm, actions⟩).2) := by
  have hea : executeAction (primErr i) a = ⟨false, true, true⟩ := by
    simp [executeAction, hen, herr]
  have hsnd : (seqLoop primErr none actions 0 true).2 = iterEvents primErr actions 0 :=
    seqLoop_none_snd primErr actions 0 true
  refine ⟨?_, ?_, ?_, ?_, ?_⟩
  · have := error_mem_iterEvents primErr actions 0 i a hget
      (by rw [Nat.zero_add, hea])
    simp only [executeSequence, List.mem_append, hsnd]
    exact Or.inl (by simpa [Nat.zero_add] using this)
  · have := start_mem_iterEvents primErr actions 0 (i + 1) hnext
    simp only [executeSequence, List.mem_append, hsnd]
    exact Or.inl (by simpa [Nat.zero_add] using this)
  · have := complete_mem_iterEvents primErr actions 0 (i + 1) hnext
    simp only [executeSequence, List.mem_append, hsnd]
    exact Or.inl (by simpa [Nat.zero_add] using this)
  · have hall := allResults_false_of_fail primErr actions 0 i a hget
      (by rw [Nat.zero_add, hea])
    simp [executeSequence, seqLoop_none_fst, hall]
  · intro j hj
    have hno := seqLoop_stop_no_start primErr (i + 1) actions 0 true j hj
    simp only [executeSequence, List.mem_append, not_or]
    exact ⟨hno, by simp⟩

/-- C9 witness: a two-action sequence whose first action raises an
input failure; the second is still started and the run fails. -/
theorem C9_failure_does_not_abort_witness :
    ExecEvent.errorNotice 0 ∈ (executeSequence
        (fun n => if n = 0 then some (.valueError "bad key") else none) none
        ⟨.str "s", [⟨.keyboard_press, .obj [], .str "d1", .str "a1", .bool true⟩,
                    ⟨.mouse_click, .obj [], .str "d2", .str "a2", .bool true⟩]⟩).2 ∧
    ExecEvent.actionStart (0 + 1) ∈ (executeSequence
        (fun n => if n = 0 then some (.valueError "bad key") else none) none
        ⟨.str "s", [⟨.keyboard_press, .obj [], .str "d1", .str "a1", .bool true⟩,
                    ⟨.mouse_click, .obj [], .str "d2", .str "a2", .bool true⟩]⟩).2 ∧
    ExecEvent.actionComplete (0 + 1) ∈ (executeSequence
        (fun n => if n = 0 then some (.valueError "bad key") else none) none
        ⟨.str "s", [⟨.keyboard_press, .obj [], .str "d1", .str "a1", .bool true⟩,
                    ⟨.mouse_click, .obj [], .str "d2", .str "a2", .bool true⟩]⟩).2 ∧
    (executeSequence
        (fun n => if n = 0 then some (.valueError "bad key") else none) none
        ⟨.str "s", [⟨.keyboard_press, .obj [], .str "d1", .str "a1", .bool true⟩,
                    ⟨.mouse_click, .obj [], .str "d2", .str "a2", .bool true⟩]⟩).1 = false ∧
    (∀ j, 0 + 1 ≤ j →
      ExecEvent.actionStart j ∉ (executeSequence
        (fun n => if n = 0 then some (.valueError "bad key") else none) (some (0 + 1))
        ⟨.str "s", [⟨.keyboard_press, .obj [], .str "d1", .str "a1", .bool true⟩,
                    ⟨.mouse_click, .obj [], .str "d2", .str "a2", .bool true⟩]⟩).2) :=
  C9_failure_does_not_abort _ _ _ 0 _ _ rfl rfl rfl (by norm_num)

/-! ## Keyboard controller (`src/automation/keyboard_control.py`) -/

/-- An observable operation of `KeyboardController.type_unicode`: a
`pyperclip.copy` (setting the system clipboard), the Ctrl+V paste
keystroke, or a `time.sleep`. -/
inductive KbdOp where
  | clipCopy (s : String)
  | pasteKeystroke
  | sleep (r : Rat)

/-- The system clipboard after running a list of operations from an
initial clipboard content: `copy` replaces it, nothing else touches it. -/
def runClip (clip0 : String) (ops : List KbdOp) : String :=
  ops.foldl
    (fun clip op =>
      match op with
      | .clipCopy s => s
      | _ => clip)
    clip0

/-- The per-character loop of `type_unicode` when `interval > 0`: copy
one character, paste, sleep. A paste keystroke that raises (`pasteFails
n = some e`) propagates the exception out of the loop, skipping the
sleep and the remaining characters. -/
def perCharLoop (pasteFails : Nat → Option PyErr) (interval : Rat) :
    List Char → Nat → Except PyErr Unit × List KbdOp
  | [], _ => (.ok (), [])
  | ch :: rest, n =>
    match pasteFails n with
    | some e => (.error e, [.clipCopy (String.mk [ch]), .pasteKeystroke])
    | none =>
      let r := perCharLoop pasteFails interval rest (n + 1)
      (r.1, [.clipCopy (String.mk [ch]), .pasteKeystroke, .sleep interval] ++ r.2)

/-- `KeyboardController.type_unicode`: captures the current clipboard
(`pyperclip.paste()`), then inside a `try` either pastes character by
character (when `interval > 0`) or copies and pastes the whole text in
one shot, and in the `finally` always restores the captured clipboard
content. `pasteFails n` abstracts whether the n-th paste keystroke of
this call raises. Returns the call's outcome and the operation trace. -/
def type_unicode (pasteFails : Nat → Option PyErr) (text : String) (interval : Rat)
    (clip0 : String) : Except PyErr Unit × List KbdOp :=
  let original := clip0
  let body : Except PyErr Unit × List KbdOp :=
    if 0 < interval then perCharLoop pasteFails interval text.data 0
    else
      match pasteFails 0 with
      | some e => (.error e, [.clipCopy text, .pasteKeystroke])
      | none => (.ok (), [.clipCopy text, .pasteKeystroke])
  (body.1, body.2 ++ [.clipCopy original])

/-- The non-ASCII test of `ActionExecutor.execute_action`'s
`KEYBOARD_TYPE` branch (`any(ord(c) > 127 for c in text)`): `True`
selects `type_unicode` (the clipboard-paste path), `False` selects
`type_text` (direct keystroke synthesis). -/
def containsNonAscii (text : String) : Bool :=
  text.data.any fun ch => 127 < ch.toNat

/-- C8: a `TypeText` action whose text has a character above code point
127 is dispatched through the clipboard-paste path, and on every exit
path of `type_unicode` — the paste keystrokes failing included — the
clipboard ends up holding its pre-call contents. -/
theorem C8_unicode_clipboard_restore (text : String) (interval : Rat)
    (pasteFails : Nat → Option PyErr) (clip0 : String)
    (h : ∃ ch ∈ text.data, 127 < ch.toNat) :
    containsNonAscii text = true ∧
    runClip clip0 (type_unicode pasteFails text interval clip0).2 = clip0 := by
  constructor
  · simpa [containsNonAscii, List.any_eq_true] using h
  · show runClip clip0 (_ ++ [.clipCopy clip0]) = clip0
    simp [runClip, List.foldl_append]

/-- C8 witness: typing `"héllo"` with every paste keystroke failing
still restores the prior clipboard content. -/
theorem C8_unicode_clipboard_restore_witness :
    containsNonAscii "héllo" = true ∧
    runClip "prior"
      (type_unicode (fun _ => some (.valueError "paste failed")) "héllo" 0 "prior").2 =
      "prior" :=
  C8_unicode_clipboard_restore "héllo" 0 (fun _ => some (.valueError "paste failed"))
    "prior" (by decide)

/-! ## Serialization and sequence-invariant properties (`src/models/action.py`) -/

/-- Dissection of a successful `Except` bind. -/
theorem bind_ok_iff {ε α β : Type} (x : Except ε α) (f : α → Except ε β) (b : β) :
    (x >>= f) = .ok b ↔ ∃ a, x = .ok a ∧ f a = .ok b := by
  cases x with
  | error e => simp [show ((Except.error e : Except ε α) >>= f) = Except.error e from rfl]
  | ok a => simp [show ((Except.ok a : Except ε α) >>= f) = f a from rfl]

theorem ActionType.ofValue_value (t : ActionType) :
    ActionType.ofValue (.str t.value) = .ok t := by
  cases t <;> rfl

theorem Action.create_id (t : ActionType) (p d i e : Json) (a : Action)
    (h : Action.create t p d i e = .ok a) : a.id = i := by
  unfold Action.create at h
  split at h
  · cases h
    rfl
  · obtain ⟨d2, _, h2⟩ := (bind_ok_iff _ _ _).mp h
    cases h2
    rfl

/-- The id an entry of the serialized `actions` list yields: its `id`
field when it is a dict carrying one, the fresh uuid otherwise. -/
def entryId (freshId : String) (d : Json) : Json :=
  match d with
  | .obj kvs => (kvs.lookup "id").getD (.str freshId)
  | _ => .str freshId

/-- The ids the entries of a serialized `actions` list yield, in order. -/
def dataIds (fresh : Nat → String) : List Json → Nat → List Json
  | [], _ => []
  | d :: rest, n => entryId (fresh n) d :: dataIds fresh rest (n + 1)

theorem Action.from_dict_id (freshId : String) (d : Json) (a : Action)
    (h : Action.from_dict freshId d = .ok a) : a.id = entryId freshId d := by
  unfold Action.from_dict at h
  cases d with
  | obj kvs =>
    simp only [pyGet, pySubscript] at h
    rw [show ((Except.ok ((kvs.lookup "id").getD (.str freshId)) : Except PyErr Json) >>= fun id =>
        (match kvs.lookup "action_type" with
          | some v => Except.ok v
          | none => Except.error (.keyError "action_type")) >>= fun tv =>
        ActionType.ofValue tv >>= fun t =>
        (Except.ok ((kvs.lookup "params").getD (.obj [])) : Except PyErr Json) >>= fun params =>
        (Except.ok ((kvs.lookup "description").getD (.str "")) : Except PyErr Json) >>= fun description =>
        (Except.ok ((kvs.lookup "enabled").getD (.bool true)) : Except PyErr Json) >>= fun enabled =>
        Action.create t params description id enabled) =
      ((match kvs.lookup "action_type" with
          | some v => Except.ok v
          | none => Except.error (.keyError "action_type")) >>= fun tv =>
        ActionType.ofValue tv >>= fun t =>
        Action.create t ((kvs.lookup "params").getD (.obj []))
          ((kvs.lookup "description").getD (.str ""))
          ((kvs.lookup "id").getD (.str freshId))
          ((kvs.lookup "enabled").getD (.bool true))) from rfl] at h
    obtain ⟨tv, _, h⟩ := (bind_ok_iff _ _ _).mp h
    obtain ⟨t, _, h⟩ := (bind_ok_iff _ _ _).mp h
    rw [entryId]
    exact Action.create_id _ _ _ _ _ _ h
  | null => exact Except.noConfusion h
  | bool b => exact Except.noConfusion h
  | num n => exact Except.noConfusion h
  | str s => exact Except.noConfusion h
  | arr xs => exact Except.noConfusion h

theorem parseActions_ids (fresh : Nat → String) :
    ∀ (xs : List Json) (n : Nat) (as : List Action),
      parseActions fresh xs n = .ok as → as.map Action.id = dataIds fresh xs n := by
  intro xs
  induction xs with
  | nil =>
    intro n as h
    cases h
    rfl
  | cons d rest ih =>
    intro n as h
    unfold parseActions at h
    obtain ⟨a, ha, h⟩ := (bind_ok_iff _ _ _).mp h
    obtain ⟨as2, has, h⟩ := (bind_ok_iff _ _ _).mp h
    cases h
    rw [List.map_cons, dataIds, Action.from_dict_id _ _ _ ha, ih _ _ has]

theorem insertIdx_perm (x : Action) :
    ∀ (n : Nat) (l : List Action), n ≤ l.length → List.Perm (l.insertIdx n x) (x :: l) := by
  intro n
  induction n with
  | zero =>
    intro l _
    rw [List.insertIdx_zero]
  | succ n ih =>
    intro l h
    cases l with
    | nil => simp at h
    | cons a t =>
      rw [List.insertIdx_succ_cons]
      exact .trans (.cons a (ih t (by simpa using h))) (.swap x a t)

theorem cons_eraseIdx_perm :
    ∀ (l : List Action) (i : Nat) (h : i < l.length),
      List.Perm (l.get ⟨i, h⟩ :: l.eraseIdx i) l := by
  intro l
  induction l with
  | nil => intro i h; simp at h
  | cons a t ih =>
    intro i h
    cases i with
    | zero => rfl
    | succ i =>
      have hi : i < t.length := by simpa using h
      exact .trans (.swap a (t.get ⟨i, hi⟩) (t.eraseIdx i)) (.cons a (ih i hi))

/-- The pairwise-distinct-ids relation on raw action lists. -/
theorem distinctIds_iff (s : ActionSequence) :
    s.distinctIds ↔ List.Pairwise (fun a b : Action => a.id ≠ b.id) s.actions := by
  unfold ActionSequence.distinctIds
  rw [List.pairwise_map]

theorem idNeq_symmetric : Symmetric (fun a b : Action => a.id ≠ b.id) :=
  fun _ _ h heq => h heq.symm

/-- C3 (amended): `remove_action` and `move_action` preserve the
id-uniqueness invariant for every input; `add_action` preserves it
provided the appended action's id is not already present (the source
appends without checking, so a duplicate id breaks the invariant);
`from_dict` establishes it provided the loaded entries yield pairwise
distinct ids (explicit `id` fields or fresh uuids). -/
theorem C3_distinct_ids_preserved :
    (∀ (s : ActionSequence) (aid : String),
      s.distinctIds → (s.remove_action aid).distinctIds) ∧
    (∀ (s : ActionSequence) (i j : Int),
      s.distinctIds → (s.move_action i j).distinctIds) ∧
    (∀ (s : ActionSequence) (a : Action),
      s.distinctIds → a.id ∉ s.actions.map Action.id → (s.add_action a).distinctIds) ∧
    (∀ (fresh : Nat → String) (kvs : List (String × Json)) (xs : List Json)
        (seq : ActionSequence),
      kvs.lookup "actions" = some (Json.arr xs) →
      ActionSequence.from_dict fresh (Json.obj kvs) = .ok seq →
      List.Pairwise (· ≠ ·) (dataIds fresh xs 0) → seq.distinctIds) := by
  refine ⟨?_, ?_, ?_, ?_⟩
  · intro s aid h
    simp only [ActionSequence.distinctIds, ActionSequence.remove_action] at h ⊢
    exact h.sublist ((List.filter_sublist _).map Action.id)
  · intro s i j h
    unfold ActionSequence.move_action
    split
    · rename_i hb
      rw [distinctIds_iff] at h ⊢
      have h1 : List.Perm
          ((s.actions.eraseIdx i.toNat).insertIdx j.toNat (s.actions.get ⟨i.toNat, by omega⟩))
          (s.actions.get ⟨i.toNat, by omega⟩ :: s.actions.eraseIdx i.toNat) := by
        apply insertIdx_perm
        have := List.length_eraseIdx_add_one (l := s.actions) (i := i.toNat) (by omega)
        omega
      have h2 : List.Perm
          (s.actions.get ⟨i.toNat, by omega⟩ :: s.actions.eraseIdx i.toNat) s.actions :=
        cons_eraseIdx_perm s.actions i.toNat (by omega)
      exact ((h1.trans h2).pairwise_iff (fun hab heq => hab heq.symm)).mpr h
    · exact h
  · intro s a h hnot
    simp only [ActionSequence.distinctIds, ActionSequence.add_action] at h ⊢
    rw [List.map_append, List.pairwise_append]
    refine ⟨h, by simp, ?_⟩
    intro x hx y hy
    simp only [List.map_cons, List.map_nil, List.mem_singleton] at hy
    subst hy
    intro heq
    exact hnot (heq ▸ hx)
  · intro fresh kvs xs seq hlk h hpw
    unfold ActionSequence.from_dict at h
    simp only [pyGet, hlk, Option.getD_some] at h
    have h2 : (parseActions fresh xs 0 >>= fun acts =>
        (Except.ok (ActionSequence.mk ((kvs.lookup "name").getD (.str "未命名序列")) acts) :
          Except PyErr ActionSequence)) = .ok seq := h
    obtain ⟨acts, hacts, h3⟩ := (bind_ok_iff _ _ _).mp h2
    cases h3
    unfold ActionSequence.distinctIds
    rw [parseActions_ids fresh xs 0 acts hacts]
    exact hpw

/-- C3 as stated is false on the code: `add_action` appends without any
check, so appending an action that reuses an existing id turns a
sequence satisfying the invariant into one violating it. -/
theorem C3_counterexample :
    (⟨Json.str "n", [⟨.delay, .obj [], .str "d", .str "a1", .bool true⟩]⟩ :
        ActionSequence).distinctIds ∧
    ¬ ((⟨Json.str "n", [⟨.delay, .obj [], .str "d", .str "a1", .bool true⟩]⟩ :
        ActionSequence).add_action
          ⟨.delay, .obj [], .str "d2", .str "a1", .bool true⟩).distinctIds := by
  constructor
  · simp [ActionSequence.distinctIds]
  · simp [ActionSequence.distinctIds, ActionSequence.add_action]

/-- C3 witness: each amended conjunct at a concrete input. -/
theorem C3_distinct_ids_preserved_witness :
    ((⟨Json.str "n", [⟨.delay, .obj [], .str "d", .str "a1", .bool true⟩,
                      ⟨.delay, .obj [], .str "d", .str "a2", .bool true⟩]⟩ :
        ActionSequence).remove_action "a1").distinctIds ∧
    ((⟨Json.str "n", [⟨.delay, .obj [], .str "d", .str "a1", .bool true⟩,
                      ⟨.delay, .obj [], .str "d", .str "a2", .bool true⟩]⟩ :
        ActionSequence).move_action 0 1).distinctIds ∧
    ((⟨Json.str "n", [⟨.delay, .obj [], .str "d", .str "a1", .bool true⟩]⟩ :
        ActionSequence).add_action
          ⟨.delay, .obj [], .str "d2", .str "a2", .bool true⟩).distinctIds ∧
    (⟨Json.str "n", [⟨.delay, .obj [], .str "d", .str "x1", .bool true⟩]⟩ :
        ActionSequence).distinctIds := by
  have hd2 : (⟨Json.str "n", [⟨.delay, .obj [], .str "d", .str "a1", .bool true⟩,
                      ⟨.delay, .obj [], .str "d", .str "a2", .bool true⟩]⟩ :
      ActionSequence).distinctIds := by
    simp [ActionSequence.distinctIds]
  refine ⟨C3_distinct_ids_preserved.1 _ "a1" hd2,
          C3_distinct_ids_preserved.2.1 _ 0 1 hd2,
          C3_distinct_ids_preserved.2.2.1 _ _ ?_ ?_, ?_⟩
  · simp [ActionSequence.distinctIds]
  · simp
  · exact C3_distinct_ids_preserved.2.2.2 (fun _ => "u")
      [("name", Json.str "n"),
       ("actions", Json.arr [Json.obj [("action_type", Json.str "delay"),
                                       ("id", Json.str "x1"),
                                       ("description", Json.str "d")]])]
      [Json.obj [("action_type", Json.str "delay"), ("id", Json.str "x1"),
                 ("description", Json.str "d")]]
      _ rfl rfl (by simp [dataIds, entryId])

theorem Action.from_dict_to_dict (freshId : String) (a : Action)
    (h : a.description.truthy = true) :
    Action.from_dict freshId a.to_dict = .ok a := by
  obtain ⟨t, p, d, i, e⟩ := a
  have h1 : Action.from_dict freshId (Action.to_dict ⟨t, p, d, i, e⟩) =
      (ActionType.ofValue (.str t.value) >>= fun t2 => Action.create t2 p d i e) := rfl
  rw [h1, ActionType.ofValue_value]
  show Action.create t p d i e = .ok ⟨t, p, d, i, e⟩
  unfold Action.create
  rw [if_pos h]

theorem parseActions_to_dict (fresh : Nat → String) :
    ∀ (as : List Action) (n : Nat), (∀ a ∈ as, a.description.truthy = true) →
      parseActions fresh (as.map Action.to_dict) n = .ok as := by
  intro as
  induction as with
  | nil => intro n _; rfl
  | cons a rest ih =>
    intro n h
    show (Action.from_dict (fresh n) a.to_dict >>= fun a2 =>
      parseActions fresh (rest.map Action.to_dict) (n + 1) >>= fun as2 =>
      Except.ok (a2 :: as2)) = .ok (a :: rest)
    rw [Action.from_dict_to_dict _ _ (h a (by simp))]
    have h2 := ih (n + 1) (fun x hx => h x (by simp [hx]))
    rw [show ((Except.ok a : Except PyErr Action) >>= fun a2 =>
        parseActions fresh (rest.map Action.to_dict) (n + 1) >>= fun as2 =>
        (Except.ok (a2 :: as2) : Except PyErr (List Action))) =
      (parseActions fresh (rest.map Action.to_dict) (n + 1) >>= fun as2 =>
        (Except.ok (a :: as2) : Except PyErr (List Action))) from rfl, h2]
    rfl

/-- C5: loading the serialization of any `ActionSequence` whose actions
carry truthy descriptions (every action the `Action` constructor –
`__post_init__` included – can produce does: a falsy description is
replaced by the generated, non-empty one) reproduces the sequence
exactly: same `name`, same action list in the same order, each action
with the same id, kind, parameters, description and enabled flag. -/
theorem C5_round_trip (fresh : Nat → String) (s : ActionSequence)
    (h : ∀ a ∈ s.actions, a.description.truthy = true) :
    ActionSequence.from_dict fresh s.to_dict = .ok s := by
  obtain ⟨nm, as⟩ := s
  have h1 : ActionSequence.from_dict fresh (ActionSequence.to_dict ⟨nm, as⟩) =
      (parseActions fresh (as.map Action.to_dict) 0 >>= fun acts =>
        (Except.ok (ActionSequence.mk nm acts) : Except PyErr ActionSequence)) := rfl
  rw [h1, parseActions_to_dict fresh as 0 h]
  rfl

/-- C5 witness: a concrete two-action sequence round-trips exactly. -/
theorem C5_round_trip_witness :
    ActionSequence.from_dict (fun _ => "u")
      (ActionSequence.to_dict
        ⟨Json.str "序列", [⟨.mouse_click, .obj [("x", .num 3), ("y", .num 4)],
                             .str "点击位置 (3, 4)", .str "a1", .bool true⟩,
                           ⟨.keyboard_type, .obj [("text", .str "hi")],
                             .str "输入: hi", .str "a2", .bool false⟩]⟩) =
      .ok ⟨Json.str "序列", [⟨.mouse_click, .obj [("x", .num 3), ("y", .num 4)],
                              .str "点击位置 (3, 4)", .str "a1", .bool true⟩,
                            ⟨.keyboard_type, .obj [("text", .str "hi")],
                              .str "输入: hi", .str "a2", .bool false⟩]⟩ :=
  C5_round_trip _ _ (by intro a ha; simp at ha; rcases ha with h | h <;> subst h <;> rfl)

/-- C4: the claim says loading never silently yields an empty sequence
from malformed input. Evaluating the loader at the failing input — a
file whose `actions` field is the string `""` instead of a list — the
load SUCCEEDS with an empty sequence (Python happily iterates the empty
string), contradicting the claim; the unknown-`kind` half of the claim
does hold: an `action_type` outside the closed set raises `ValueError`
and the load fails. -/
theorem C4_malformed_actions_silently_empty :
    ActionSequence.from_dict (fun _ => "u")
        (Json.obj [("name", Json.str "s"), ("actions", Json.str "")]) =
      .ok ⟨Json.str "s", []⟩ ∧
    ActionSequence.from_dict (fun _ => "u")
        (Json.obj [("name", Json.str "s"),
                   ("actions", Json.arr [Json.obj [("action_type", Json.str "teleport")]])]) =
      .error (.valueError "is not a valid ActionType") :=
  ⟨rfl, rfl⟩

/-- C10: `remove_action` removes every action whose id equals the given
id (not only the first), keeps exactly the actions whose id differs —
in their original relative order — leaves the `name` untouched, and is
the identity when no action carries the id. -/
theorem C10_remove_action_spec (s : ActionSequence) (aid : String) :
    (∀ a ∈ (s.remove_action aid).actions, a.id ≠ Json.str aid) ∧
    (∀ a ∈ s.actions, a.id ≠ Json.str aid → a ∈ (s.remove_action aid).actions) ∧
    (s.remove_action aid).actions.Sublist s.actions ∧
    (s.remove_action aid).name = s.name ∧
    ((∀ a ∈ s.actions, a.id ≠ Json.str aid) → s.remove_action aid = s) := by
  have hpred : ∀ a : Action, idNeqStr a.id aid = true ↔ a.id ≠ Json.str aid := by
    intro a
    cases ha : a.id <;> simp [idNeqStr, ha]
  refine ⟨?_, ?_, ?_, rfl, ?_⟩
  · intro a hmem
    simp only [ActionSequence.remove_action] at hmem
    exact (hpred a).mp (List.mem_filter.mp hmem).2
  · intro a hmem hne
    simp only [ActionSequence.remove_action]
    exact List.mem_filter.mpr ⟨hmem, (hpred a).mpr hne⟩
  · simp only [ActionSequence.remove_action]
    exact List.filter_sublist _
  · intro hall
    obtain ⟨nm, as⟩ := s
    have : as.filter (fun a => idNeqStr a.id aid) = as :=
      List.filter_eq_self.mpr fun a ha => (hpred a).mpr (hall a ha)
    simp only [ActionSequence.remove_action] at this ⊢
    rw [this]

/-- C10 witness: a duplicated id is removed at both positions, the
other action survives, and removing an absent id is the identity. -/
theorem C10_remove_action_spec_witness :
    ((⟨Json.str "n", [⟨.delay, .obj [], .str "d1", .str "a1", .bool true⟩,
                      ⟨.delay, .obj [], .str "d2", .str "b2", .bool true⟩,
                      ⟨.delay, .obj [], .str "d3", .str "a1", .bool false⟩]⟩ :
        ActionSequence).remove_action "a1" =
      ⟨Json.str "n", [⟨.delay, .obj [], .str "d2", .str "b2", .bool true⟩]⟩) ∧
    ((⟨Json.str "n", [⟨.delay, .obj [], .str "d2", .str "b2", .bool true⟩]⟩ :
        ActionSequence).remove_action "zz" =
      ⟨Json.str "n", [⟨.delay, .obj [], .str "d2", .str "b2", .bool true⟩]⟩) :=
  ⟨rfl,
   (C10_remove_action_spec _ "zz").2.2.2.2 (by
     intro a ha
     simp at ha
     subst ha
     simp)⟩

end TaskOff
